import Mathlib

/-!
Verification of the keystone-5 per-list CRUD execution engine.

The development shallowly embeds the two source components the claims are
about:

* `List` (the mutation/query pipeline of `packages/.../preview.js`):
  access-control checks, hook orchestration, validation-error aggregation,
  the nested-mutation after-change stack, and the calls it issues to the
  storage adapter.  Storage calls are recorded in an explicit trace; the
  storage backend itself (external to the engine, its JS adapters live in
  other packages) is modelled from the spec's `ListAdapter` interface as an
  in-memory list of items.  User-supplied hooks (arbitrary JS functions) are
  embedded as optional pure functions; JS promises/await are flattened into
  sequential state passing (the engine is single-threaded and cooperative).
  JS objects are association lists of string keys to `JSVal`; an absent key
  reads as `undefined` just as in JS.

* `JSONListAdapter` (`src/unnamed/part_002`): its `_create` and `_update`
  are embedded as pure functions over the stored list of raw JS objects;
  the `cuid()` fresh-id generator is a parameter of `_create`.
-/

/-- JS runtime values as far as the engine inspects them: `undefined`,
`null`, numbers and strings.  Ids are modelled as `Nat`; JS truthiness of
an id is `≠ 0` (absent/`undefined` is falsy). -/
inductive JSVal
  | undefined
  | null
  | num (n : Nat)
  | str (s : String)
deriving DecidableEq, Repr

/-- A JS object as the engine sees it: ordered association list from key to
value.  Objects built by the engine have distinct keys, like JS objects. -/
abbrev Data := List (String × JSVal)

/-- `obj[key]` before the `.getD`: `none` models an absent key. -/
def jsLookup : Data → String → Option JSVal
  | [], _ => none
  | (k, v) :: rest, key => if k = key then some v else jsLookup rest key

/-- `obj[key]` with JS semantics: an absent key reads as `undefined`. -/
def jsGetD (d : Data) (k : String) : JSVal := (jsLookup d k).getD .undefined

/-- `Object.prototype.hasOwnProperty.call(obj, key)`. -/
def hasKey (d : Data) (k : String) : Bool := (jsLookup d k).isSome

/-- Setting one key of a JS object (`{...obj, key: v}` for that key):
replaces the value in place when the key exists, else appends it. -/
def objSet (d : Data) (k : String) (v : JSVal) : Data :=
  match d with
  | [] => [(k, v)]
  | (k', v') :: rest => if k' = k then (k, v) :: rest else (k', v') :: objSet rest k v

/-- JS object spread `{...a, ...b}`: entries of `b` override those of `a`. -/
def objMergeList (a : Data) (b : Data) : Data :=
  b.foldl (fun acc kv => objSet acc kv.1 kv.2) a

theorem jsLookup_objSet_self (d : Data) (k : String) (v : JSVal) :
    jsLookup (objSet d k v) k = some v := by
  induction d with
  | nil => simp [objSet, jsLookup]
  | cons hd tl ih =>
    obtain ⟨k', v'⟩ := hd
    by_cases h : k' = k
    · simp [objSet, h, jsLookup]
    · simp [objSet, h, jsLookup, ih]

theorem jsLookup_objSet_ne (d : Data) (k k' : String) (v : JSVal) (h : k' ≠ k) :
    jsLookup (objSet d k v) k' = jsLookup d k' := by
  induction d with
  | nil => simp [objSet, jsLookup, Ne.symm h]
  | cons hd tl ih =>
    obtain ⟨k0, v0⟩ := hd
    by_cases h0 : k0 = k
    · subst h0
      simp [objSet, jsLookup, Ne.symm h]
    · simp [objSet, h0, jsLookup, ih]

/-! ## The JSONListAdapter (`src/unnamed/part_002`)

Items are raw JS objects.  `_read`/`_write` round-trip the whole stored
list through the backing file; they are modelled by passing the stored
list in and out.  The returned `writes` count records how many times
`_write` was invoked. -/

/-- `spliceImmutably(items, i, 1, [data])` from `@keystone-alpha/utils`
(external): copy with the one element at index `i` replaced by `data`. -/
def spliceImmutably1 (items : List Data) (i : Nat) (data : Data) : List Data :=
  items.take i ++ [data] ++ items.drop (i + 1)

/-- `JSONListAdapter._create(input)`: stores `{...input, id: cuid()}` by
appending it to the stored list and returns it.  The fresh id produced by
`cuid()` is the parameter `newId`. -/
def jsonCreate (items : List Data) (input : Data) (newId : JSVal) :
    Data × List Data :=
  let data := objSet input "id" newId
  (data, items ++ [data])

/-- `JSONListAdapter._update(id, data)`: finds the item whose `id` equals
the requested id; when none exists returns `null` without writing, else
replaces that item wholesale with `data`, writes, and returns `data`.
The third component counts `_write` calls. -/
def jsonUpdate (items : List Data) (id : JSVal) (data : Data) :
    Option Data × List Data × Nat :=
  match items.findIdx? (fun item => jsGetD item "id" = id) with
  | none => (none, items, 0)
  | some itemIndex => (some data, spliceImmutably1 items itemIndex data, 1)

/-- C9: when no stored item has the requested id, `JSONListAdapter._update`
returns `null`, performs no write, and leaves the stored list unchanged. -/
theorem c9_update_missing_id_is_noop (items : List Data) (id : JSVal) (data : Data)
    (h : ∀ item ∈ items, jsGetD item "id" ≠ id) :
    jsonUpdate items id data = (none, items, 0) := by
  have hidx : items.findIdx? (fun item => jsGetD item "id" = id) = none := by
    rw [List.findIdx?_eq_none_iff]
    intro item hmem
    simp [h item hmem]
  simp [jsonUpdate, hidx]

/-- Witness for C9: updating id 7 in a store holding only id 1 returns
`null` and leaves the store untouched. -/
theorem c9_update_missing_id_is_noop_witness :
    jsonUpdate [[("id", JSVal.num 1), ("name", JSVal.str "a")]]
        (JSVal.num 7) [("name", JSVal.str "b")] =
      (none, [[("id", JSVal.num 1), ("name", JSVal.str "a")]], 0) :=
  c9_update_missing_id_is_noop _ _ _ (by decide)

/-- C10: `JSONListAdapter._create(input)` returns `{...input, id: cuid()}`:
the id key always holds the freshly generated id (overwriting any
caller-supplied id), every other key of the input is preserved unchanged,
and the stored list becomes the previous list with exactly this one item
appended at the end. -/
theorem c10_create_appends_with_fresh_id (items : List Data) (input : Data)
    (newId : JSVal) :
    jsLookup (jsonCreate items input newId).1 "id" = some newId ∧
    (∀ k, k ≠ "id" →
      jsLookup (jsonCreate items input newId).1 k = jsLookup input k) ∧
    (jsonCreate items input newId).2 = items ++ [(jsonCreate items input newId).1] := by
  refine ⟨?_, ?_, ?_⟩
  · simpa [jsonCreate] using jsLookup_objSet_self input "id" newId
  · intro k hk
    simpa [jsonCreate] using jsLookup_objSet_ne input "id" k newId hk
  · simp [jsonCreate]

/-! ## Data model of the `List` engine (`preview.js`) -/

/-- Item ids (cuid strings in JS; `Nat` here, with 0 playing the role of a
JS-falsy id). -/
abbrev ItemId := Nat

/-- An item as the engine sees it: an id plus named fields. -/
structure Item where
  id : ItemId
  fields : Data
deriving DecidableEq, Repr

/-- The id-related keys of a declarative access-control where-clause, plus
the residual (`rest`) field-equality constraints the engine never inspects
itself (it only strips them with `omit`). -/
structure AccessFilter where
  id : Option ItemId := none
  id_not : Option ItemId := none
  id_in : Option (List ItemId) := none
  id_not_in : Option (List ItemId) := none
  rest : Data := []
deriving DecidableEq, Repr

/-- The evaluated list-level access-control result for one operation:
JS `true`, a falsy value, or a truthy declarative filter object. -/
inductive ListAccess
  | allow
  | deny
  | filter (f : AccessFilter)
deriving DecidableEq, Repr

/-- JS truthiness of an id-valued property: absent or zero is falsy. -/
def optIdTruthy : Option ItemId → Bool
  | none => false
  | some i => i != 0

/-- Spreading an access value into a where-clause object: `{...true}` and
`{...false}` are `{}`, a filter spreads to itself. -/
def accessFilter : ListAccess → AccessFilter
  | .filter f => f
  | _ => {}

/-- A storage query: a conjunction of where-clauses plus the `first` limit.
`mergeWhereClause` appends a clause. -/
structure Where where
  clauses : List AccessFilter := []
  first : Option Nat := none
deriving DecidableEq, Repr

/-- Does one where-clause hold of an item?  (Adapter-side semantics,
modelled from the spec's `ListAdapter.itemsQuery` interface; the JSON
adapter in the repository leaves `_itemsQuery` unimplemented.) -/
def matchesAF (f : AccessFilter) (it : Item) : Bool :=
  (match f.id with | none => true | some v => it.id == v) &&
  (match f.id_not with | none => true | some v => it.id != v) &&
  (match f.id_in with | none => true | some l => l.contains it.id) &&
  (match f.id_not_in with | none => true | some l => !l.contains it.id) &&
  f.rest.all (fun kv => jsGetD it.fields kv.1 = kv.2)

def matchesWhere (w : Where) (it : Item) : Bool :=
  w.clauses.all (fun f => matchesAF f it)

def takeFirst (o : Option Nat) (l : List Item) : List Item :=
  match o with
  | none => l
  | some n => l.take n

/-- One call made to the storage adapter, as recorded in the trace. -/
inductive AdapterCall
  | findById (id : ItemId)
  | itemsQuery (w : Where)
  | itemsQueryMeta (w : Where)
  | create (data : Data)
  | update (id : ItemId)
  | delete (id : ItemId)
deriving DecidableEq, Repr

def isWriteCall : AdapterCall → Bool
  | .create _ => true
  | .update _ => true
  | .delete _ => true
  | _ => false

/-- Public payload of an `AccessDeniedError`: `{ type: opToType[operation],
target, ...extraData }`; the only extra public datum the engine ever adds
is `restrictedFields` (from `checkFieldAccess`). -/
structure AccessPub where
  type : String
  target : String
  restrictedFields : Option (List String) := none
deriving DecidableEq, Repr

/-- Public payload of a `ValidationFailureError`: the aggregated
user-facing messages plus list key and operation (the per-error `data`
diagnostic objects are opaque to every claim and are elided). -/
structure ValidationPub where
  messages : List String
  listKey : String
  operation : String
deriving DecidableEq, Repr

/-- The error surface of the engine: the two graphql error classes it
raises itself, plus pass-through storage failures. -/
inductive Err
  | accessDenied (pub : AccessPub)
  | validationFailure (pub : ValidationPub)
  | storage (code : Nat)
deriving DecidableEq, Repr

/-- `opToType` from `preview.js`. -/
def opToType (operation : String) : String :=
  if operation = "read" then "query" else "mutation"

/-- One collected validation error (`{ msg, data, internalData }`; only the
public message is retained, see `ValidationPub`). -/
structure ValErr where
  msg : String
deriving DecidableEq, Repr

/-- The argument object handed to hooks (`resolvedData`, `existingItem`,
`originalInput`; `context` and `actions` carry no data the hooks of this
model inspect). -/
structure HookArgs where
  resolvedData : Data := []
  existingItem : Option Item := none
  originalInput : Data := []

/-- The validation phases run through `_validateHook`. -/
inductive ValidatePhase
  | validateInput
  | validateDelete
deriving DecidableEq, Repr

/-- Per-field user hooks (`field.hooks.*`), each optional. -/
structure FieldHooks where
  resolveInput : Option (HookArgs → JSVal) := none
  validateInput : Option (HookArgs → List ValErr) := none
  validateDelete : Option (HookArgs → List ValErr) := none

/-- A field definition: path, capability flags, default value, the
behaviour of its built-in hook implementations (field types live outside
this repository, so they are abstract parameters; `none` means the
built-in resolves to the incoming value and adds no validation errors),
and the user hooks. -/
structure FieldDef where
  path : String
  isRequired : Bool := false
  isRelationship : Bool := false
  defaultValue : Option JSVal := none
  resolveInputBI : Option (HookArgs → JSVal) := none
  resolveRel : Option (HookArgs → JSVal) := none
  validateInputBI : Option (HookArgs → List ValErr) := none
  validateDeleteBI : Option (HookArgs → List ValErr) := none
  hooks : FieldHooks := {}

/-- List-level user hooks (`this.hooks`). -/
structure ListHooks where
  resolveInput : Option (HookArgs → Data) := none
  validateInput : Option (HookArgs → List ValErr) := none
  validateDelete : Option (HookArgs → List ValErr) := none

/-- The graphql names a list exposes; the engine only uses them as the
`target` of error payloads. -/
structure GqlNames where
  itemQueryName : String := "Item"
  listQueryName : String := "allItems"
  listQueryMetaName : String := "_allItemsMeta"
  createMutationName : String := "createItem"
  createManyMutationName : String := "createItems"
  updateMutationName : String := "updateItem"
  updateManyMutationName : String := "updateItems"
  deleteMutationName : String := "deleteItem"
  deleteManyMutationName : String := "deleteItems"

/-- A list definition: key, ordered fields, list hooks, graphql names. -/
structure ListDef where
  key : String
  fields : List FieldDef
  hooks : ListHooks := {}
  gqlNames : GqlNames := {}

/-- The per-request context: the two access-control collaborators
(`getListAccessControlForUser`, `getFieldAccessControlForUser`). -/
structure Ctx where
  listAccess : String → ListAccess
  fieldAccess : String → Option Item → String → Bool

/-- An after-hook recorded on the mutation state's stack: invoking it runs
`_afterChange`/`_afterDelete` for the given item. -/
inductive AfterEvent
  | afterChange (itemId : ItemId)
  | afterDelete (itemId : ItemId)
deriving DecidableEq, Repr

/-- The state of a `createLazyDeferred` handle over the item being
created. -/
inductive DeferredState
  | pending
  | resolved (it : Item)
  | rejected (e : Err)
deriving DecidableEq, Repr

/-- The world the engine acts on: the store behind the adapter, the trace
of adapter calls, the shared mutation state's after-change stack, the log
of after hooks actually invoked, the last deferred item handle, the fresh
id supply, and whether the adapter's `create` fails (the storage error
injected for testing persist failure). -/
structure St where
  db : List Item := []
  trace : List AdapterCall := []
  afterChangeStack : List AfterEvent := []
  hookLog : List AfterEvent := []
  lastDeferred : Option DeferredState := none
  nextId : ItemId := 1
  createFail : Option Nat := none
deriving DecidableEq, Repr

/-! ### The storage adapter (modelled from the spec, §6 ListAdapter) -/

def adapterFindById (id : ItemId) (s : St) : Option Item × St :=
  (s.db.find? (fun it => it.id == id), { s with trace := s.trace ++ [.findById id] })

def adapterItemsQuery (w : Where) (s : St) : List Item × St :=
  (takeFirst w.first (s.db.filter (matchesWhere w)),
   { s with trace := s.trace ++ [.itemsQuery w] })

def adapterItemsQueryMeta (w : Where) (s : St) : Nat × St :=
  ((s.db.filter (matchesWhere w)).length,
   { s with trace := s.trace ++ [.itemsQueryMeta w] })

def adapterCreate (d : Data) (s : St) : Except Err Item × St :=
  let s1 := { s with trace := s.trace ++ [.create d] }
  match s.createFail with
  | some code => (.error (.storage code), s1)
  | none =>
    let it : Item := { id := s1.nextId, fields := d }
    (.ok it, { s1 with db := s1.db ++ [it], nextId := s1.nextId + 1 })

def adapterUpdate (id : ItemId) (d : Data) (s : St) : Option Item × St :=
  let s1 := { s with trace := s.trace ++ [.update id] }
  match s.db.find? (fun it => it.id == id) with
  | none => (none, s1)
  | some _ =>
    let ni : Item := { id := id, fields := d }
    (some ni, { s1 with db := s1.db.map (fun it => if it.id == id then ni else it) })

def adapterDelete (id : ItemId) (s : St) : Option Item × St :=
  let s1 := { s with trace := s.trace ++ [AdapterCall.delete id] }
  (s.db.find? (fun it => it.id == id),
   { s1 with db := s1.db.filter (fun it => it.id != id) })

/-! ### Small `@keystone-alpha/utils` helpers (external; modelled from
their documented behaviour) -/

/-- `unique`: first-occurrence deduplication. -/
def jsUniqueAux (seen : List ItemId) : List ItemId → List ItemId
  | [] => []
  | x :: xs => if seen.contains x then jsUniqueAux seen xs else x :: jsUniqueAux (x :: seen) xs

def jsUnique (l : List ItemId) : List ItemId := jsUniqueAux [] l

/-- `intersection(a, b) = a.filter(x => b.includes(x))`. -/
def jsIntersection (a b : List ItemId) : List ItemId := a.filter (fun x => b.contains x)

/-! ## The access-check and hook machinery of `List` -/

/-- `List.checkListAccess`: evaluate the list-level rule for the operation
and throw `AccessDeniedError` on a falsy result, else hand the rule back. -/
def checkListAccess (ctx : Ctx) (operation gqlName : String) (s : St) :
    Except Err ListAccess × St :=
  match ctx.listAccess operation with
  | .deny => (.error (.accessDenied { type := opToType operation, target := gqlName }), s)
  | a => (.ok a, s)

/-- The `restrictedFields` list `List.checkFieldAccess` accumulates: for
each item-to-update, the paths present in its input whose field-level
access evaluates falsy. -/
def restrictedOf (L : ListDef) (ctx : Ctx) (operation : String)
    (itemsToUpdate : List (Option Item × Data)) : List String :=
  itemsToUpdate.flatMap (fun eu =>
    (L.fields.filter (fun f => hasKey eu.2 f.path)).filterMap (fun f =>
      if ctx.fieldAccess f.path eu.1 operation then none else some f.path))

/-- `List.checkFieldAccess`: throw `AccessDeniedError` carrying the
restricted paths when any are found. -/
def checkFieldAccess (L : ListDef) (ctx : Ctx) (operation : String)
    (itemsToUpdate : List (Option Item × Data)) (gqlName : String) : Except Err Unit :=
  let restrictedFields := restrictedOf L ctx operation itemsToUpdate
  if restrictedFields.isEmpty then .ok ()
  else .error (.accessDenied { type := opToType operation, target := gqlName,
                               restrictedFields := some restrictedFields })

/-- The fast-path exclusion test of `List.getAccessControlledItem`: the
filter's explicit id constraints provably exclude the requested id
(`access.id && access.id !== id`, etc., with JS truthiness). -/
def idExcluded (f : AccessFilter) (id : ItemId) : Bool :=
  (match f.id with | some v => v != 0 && v != id | none => false) ||
  (match f.id_not with | some v => v != 0 && v == id | none => false) ||
  (match f.id_in with | some l => !l.contains id | none => false) ||
  (match f.id_not_in with | some l => l.contains id | none => false)

/-- `List.getAccessControlledItem(id, access, ...)`: full access fetches by
id; a filter first runs the in-memory id exclusion, then queries storage
with `{ first: 1, where: { ...access, id } }`; every failure — id excluded,
id not stored, or stored but filtered out — throws the same
`AccessDeniedError`, never a not-found variant. -/
def getAccessControlledItem (id : ItemId) (access : ListAccess)
    (operation gqlName : String) (s : St) : Except Err Item × St :=
  let denied : Err := .accessDenied { type := opToType operation, target := gqlName }
  match access with
  | .allow =>
    match adapterFindById id s with
    | (some item, s1) => (.ok item, s1)
    | (none, s1) => (.error denied, s1)
  | other =>
    let f := accessFilter other
    if idExcluded f id then (.error denied, s)
    else
      match adapterItemsQuery { clauses := [{ f with id := some id }], first := some 1 } s with
      | (item :: _, s1) => (.ok item, s1)
      | ([], s1) => (.error denied, s1)

/-- The `idFilters.id_in` computed by `List.getAccessControlledItems`:
requested ids, narrowed in memory to the filter's allowed ids when it
carries any. -/
def gacAllowedIdIn (f : AccessFilter) (uniqueIds : List ItemId) : List ItemId :=
  if optIdTruthy f.id || f.id_in.isSome then
    jsIntersection (jsUnique ((f.id.toList ++ f.id_in.getD []).filter (fun i => i != 0)))
      uniqueIds
  else uniqueIds

/-- The `idFilters.id_not_in` computed by `List.getAccessControlledItems`:
the filter's disallowed ids restricted to the requested ones. -/
def gacDisallowedIdNotIn (f : AccessFilter) (uniqueIds : List ItemId) :
    Option (List ItemId) :=
  if optIdTruthy f.id_not || f.id_not_in.isSome then
    some (jsIntersection
      (jsUnique ((f.id_not.toList ++ f.id_not_in.getD []).filter (fun i => i != 0)))
      uniqueIds)
  else none

/-- The in-memory short-circuit of `getAccessControlledItems`: no allowed
id was requested, or every requested id is explicitly disallowed. -/
def gacShortCircuit (f : AccessFilter) (uniqueIds : List ItemId) : Bool :=
  (gacAllowedIdIn f uniqueIds).isEmpty ||
  (match gacDisallowedIdNotIn f uniqueIds with
   | some l => l.length == uniqueIds.length
   | none => false)

/-- The storage query `getAccessControlledItems` issues when it does not
short-circuit: `{ ...remainingAccess, ...idFilters }`. -/
def gacWhere (f : AccessFilter) (uniqueIds : List ItemId) : Where :=
  { clauses := [{ id := none, id_not := none,
                  id_in := some (gacAllowedIdIn f uniqueIds),
                  id_not_in := gacDisallowedIdNotIn f uniqueIds,
                  rest := f.rest }],
    first := none }

/-- `List.getAccessControlledItems(ids, access)`: the batch variant; it
never throws — an empty result is returned silently. -/
def getAccessControlledItems (ids : List ItemId) (access : ListAccess) (s : St) :
    List Item × St :=
  if ids.isEmpty then ([], s)
  else
    let uniqueIds := jsUnique ids
    match access with
    | .allow => adapterItemsQuery { clauses := [{ id_in := some uniqueIds }] } s
    | other =>
      let f := accessFilter other
      if gacShortCircuit f uniqueIds then ([], s)
      else adapterItemsQuery (gacWhere f uniqueIds) s

/-! ### Hook orchestration -/

def builtinValidate (f : FieldDef) : ValidatePhase → Option (HookArgs → List ValErr)
  | .validateInput => f.validateInputBI
  | .validateDelete => f.validateDeleteBI

def userValidate (f : FieldDef) : ValidatePhase → Option (HookArgs → List ValErr)
  | .validateInput => f.hooks.validateInput
  | .validateDelete => f.hooks.validateDelete

def listValidate (L : ListDef) : ValidatePhase → Option (HookArgs → List ValErr)
  | .validateInput => L.hooks.validateInput
  | .validateDelete => L.hooks.validateDelete

def applyValHook (h : Option (HookArgs → List ValErr)) (args : HookArgs) : List ValErr :=
  match h with
  | none => []
  | some g => g args

/-- `List._throwValidationFailure(errors, operation, ...)`: one error whose
public messages are all the collected messages. -/
def validationFailureErr (L : ListDef) (errors : List ValErr) (operation : String) : Err :=
  .validationFailure { messages := errors.map (fun e => e.msg), listKey := L.key,
                       operation := operation }

/-- The `fieldValidationErrors` a `_validateHook` run collects: every error
added via `addFieldValidationError` by field built-ins, then by field user
hooks (field-declaration order within each group). -/
def fieldPhaseErrors (fields : List FieldDef) (phase : ValidatePhase)
    (args : HookArgs) : List ValErr :=
  (fields.map (fun f => applyValHook (builtinValidate f phase) args)).flatten ++
  ((fields.filterMap (fun f => userValidate f phase)).map (fun h => h args)).flatten

/-- `List._validateHook`: collect the field-level errors and throw them as
one failure when any exist; only otherwise run the list-level hook, whose
collected errors are thrown as one failure of their own. -/
def validateHook (L : ListDef) (args : HookArgs) (fields : List FieldDef)
    (operation : String) (phase : ValidatePhase) : Except Err Unit :=
  let fieldValidationErrors := fieldPhaseErrors fields phase args
  if fieldValidationErrors.isEmpty then
    match listValidate L phase with
    | none => .ok ()
    | some h =>
      let listValidationErrors := h args
      if listValidationErrors.isEmpty then .ok ()
      else .error (validationFailureErr L listValidationErrors operation)
  else .error (validationFailureErr L fieldValidationErrors operation)

/-- `List._fieldsFromObject`: the declared fields named by the object's
keys, in key order. -/
def fieldsFromObject (L : ListDef) (obj : Data) : List FieldDef :=
  obj.filterMap (fun kv => L.fields.find? (fun f => f.path == kv.1))

def isNullOrUndefined : JSVal → Bool
  | .undefined => true
  | .null => true
  | _ => false

/-- The isRequired filter of `List._validateInput`. -/
def requiredViolated (operation : String) (resolvedData : Data) (f : FieldDef) : Bool :=
  f.isRequired && !f.isRelationship &&
    ((operation == "create" && isNullOrUndefined (jsGetD resolvedData f.path)) ||
     (operation == "update" && hasKey resolvedData f.path &&
       isNullOrUndefined (jsGetD resolvedData f.path)))

def requiredMissing (L : ListDef) (operation : String) (resolvedData : Data) :
    List FieldDef :=
  L.fields.filter (requiredViolated operation resolvedData)

def requiredMsg (path : String) : String :=
  "Required field \"" ++ path ++ "\" is null or undefined."

/-- `List._validateInput`: the isRequired check (thrown on its own when it
fails), then `_validateHook` for the `validateInput` phase over the fields
named by the resolved data. -/
def validateInputFn (L : ListDef) (resolvedData : Data) (existingItem : Option Item)
    (operation : String) (originalInput : Data) : Except Err Unit :=
  let args : HookArgs := { resolvedData := resolvedData, existingItem := existingItem,
                           originalInput := originalInput }
  let fieldValidationErrors :=
    (requiredMissing L operation resolvedData).map (fun f => ValErr.mk (requiredMsg f.path))
  if fieldValidationErrors.isEmpty then
    validateHook L args (fieldsFromObject L resolvedData) operation .validateInput
  else .error (validationFailureErr L fieldValidationErrors operation)

/-- `List._validateDelete`: `_validateHook` for `validateDelete` over all
fields. -/
def validateDeleteFn (L : ListDef) (existingItem : Item) (operation : String) :
    Except Err Unit :=
  validateHook L { existingItem := some existingItem } L.fields operation .validateDelete

/-- `List._resolveDefaults`: `{...defaults, ...data}`. -/
def resolveDefaultsFn (L : ListDef) (data : Data) : Data :=
  objMergeList (L.fields.filterMap (fun f => f.defaultValue.map (fun v => (f.path, v)))) data

/-- A field's resolution step: its built-in (or relationship) resolver when
one is given, else the incoming value passes through. -/
def applyFieldResolve (h : Option (HookArgs → JSVal)) (args : HookArgs)
    (path : String) : JSVal :=
  match h with
  | none => jsGetD args.resolvedData path
  | some g => g args

/-- `List._resolveRelationship`: resolve each relationship field present in
the data and merge the results over it.  `resolveNestedOperations` lives in
the external Relationship field package; its value-level behaviour is the
abstract `resolveRel` parameter (nested writes themselves are exercised
through `treeMutation` below). -/
def resolveRelationshipFn (L : ListDef) (data : Data) (existingItem : Option Item) :
    Data :=
  let args : HookArgs := { resolvedData := data, existingItem := existingItem }
  let fields := (fieldsFromObject L data).filter (fun f => f.isRelationship)
  objMergeList data (fields.map (fun f => (f.path, applyFieldResolve f.resolveRel args f.path)))

/-- `List._resolveInput`: field built-ins rebuild the object over the
recognised fields (unknown keys drop), field user hooks merge over that,
and a list-level hook's return replaces it wholesale.  The source spreads
`{ resolvedData, ...args }`, so every participant observes the entry
resolvedData in its arguments. -/
def resolveInputFn (L : ListDef) (resolvedData : Data) (existingItem : Option Item)
    (operation : String) (originalInput : Data) : Data :=
  let args : HookArgs := { resolvedData := resolvedData, existingItem := existingItem,
                           originalInput := originalInput }
  let fields := fieldsFromObject L resolvedData
  let rd1 : Data := fields.map (fun f => (f.path, applyFieldResolve f.resolveInputBI args f.path))
  let rd2 := objMergeList rd1
    (fields.filterMap (fun f => f.hooks.resolveInput.map (fun h => (f.path, h args))))
  match L.hooks.resolveInput with
  | none => rd2
  | some h => h args

/-! ## Nested mutations and the after-change stack -/

/-- The `while (afterChangeStack.length) await afterChangeStack.pop()()`
drain loop of `_nestedMutation`: the order in which the stacked after hooks
are invoked (pop takes the last-pushed entry). -/
def drainOrder (stack : List AfterEvent) : List AfterEvent :=
  match h : stack.getLast? with
  | none => []
  | some e => e :: drainOrder stack.dropLast
termination_by stack.length
decreasing_by
  cases stack with
  | nil => simp at h
  | cons a l => simp [List.length_dropLast]

theorem drainOrder_eq_reverse (stack : List AfterEvent) :
    drainOrder stack = stack.reverse := by
  induction stack using List.reverseRecOn with
  | nil =>
    rw [drainOrder]
    split
    next => rfl
    next e h => simp at h
  | append_singleton l a ih =>
    rw [drainOrder]
    rw [List.dropLast_concat, ih]
    split
    next h => rw [List.getLast?_concat] at h; cases h
    next e h => rw [List.getLast?_concat] at h; cases h; simp

/-- `List._nestedMutation(mutationState, context, mutation)`: a root call
(no inherited mutation state) starts a fresh after-change stack, runs the
mutation, pushes its after hook, and drains the stack last-pushed-first; a
nested call shares the caller's stack and only pushes.  An error thrown by
the mutation propagates before the push, so the failed write's after hook
is never enqueued.  (`Relationship.resolveBacklinks` is external backlink
bookkeeping with no effect observed by the claims.) -/
def nestedMutation {α : Type} (mutationState : Option Unit)
    (mutation : St → Except Err (α × AfterEvent) × St) (s : St) : Except Err α × St :=
  let isRootMutation := mutationState.isNone
  let s0 := if isRootMutation then { s with afterChangeStack := [] } else s
  match mutation s0 with
  | (.error e, s1) => (.error e, s1)
  | (.ok ra, s1) =>
    let s2 := { s1 with afterChangeStack := s1.afterChangeStack ++ [ra.2] }
    if isRootMutation then
      (.ok ra.1, { s2 with afterChangeStack := [],
                           hookLog := s2.hookLog ++ drainOrder s2.afterChangeStack })
    else (.ok ra.1, s2)

/-- The body of `List._createSingle`: defaults, the deferred item handle,
relationship and input resolution, validation, persist.  On persist success
the deferred handle resolves with the new item; on failure it is rejected
and the storage error is re-raised. -/
def createSingleBody (L : ListDef) (data : Data) (existingItem : Option Item)
    (s : St) : Except Err (Item × AfterEvent) × St :=
  let operation := "create"
  let defaultedItem := resolveDefaultsFn L data
  let s := { s with lastDeferred := some .pending }
  let resolvedData := resolveRelationshipFn L defaultedItem existingItem
  let resolvedData := resolveInputFn L resolvedData existingItem operation data
  match validateInputFn L resolvedData existingItem operation data with
  | .error e => (.error e, s)
  | .ok _ =>
    match adapterCreate resolvedData s with
    | (.error e, s1) => (.error e, { s1 with lastDeferred := some (.rejected e) })
    | (.ok newItem, s1) =>
      (.ok (newItem, .afterChange newItem.id),
       { s1 with lastDeferred := some (.resolved newItem) })

def createSingle (L : ListDef) (ctx : Ctx) (data : Data) (existingItem : Option Item)
    (mutationState : Option Unit) (s : St) : Except Err Item × St :=
  nestedMutation mutationState (createSingleBody L data existingItem) s

/-- The body of `List._updateSingle`. -/
def updateSingleBody (L : ListDef) (id : ItemId) (data : Data) (existingItem : Item)
    (s : St) : Except Err (Option Item × AfterEvent) × St :=
  let operation := "update"
  let resolvedData := resolveRelationshipFn L data (some existingItem)
  let resolvedData := resolveInputFn L resolvedData (some existingItem) operation data
  match validateInputFn L resolvedData (some existingItem) operation data with
  | .error e => (.error e, s)
  | .ok _ =>
    let (newItem, s1) := adapterUpdate id resolvedData s
    (.ok (newItem, .afterChange id), s1)

def updateSingle (L : ListDef) (ctx : Ctx) (id : ItemId) (data : Data)
    (existingItem : Item) (mutationState : Option Unit) (s : St) :
    Except Err (Option Item) × St :=
  nestedMutation mutationState (updateSingleBody L id data existingItem) s

/-- The body of `List._deleteSingle` (`_registerBacklinks` and
`_beforeDelete` have no observable effect in this model). -/
def deleteSingleBody (L : ListDef) (existingItem : Item) (s : St) :
    Except Err (Option Item × AfterEvent) × St :=
  match validateDeleteFn L existingItem "delete" with
  | .error e => (.error e, s)
  | .ok _ =>
    let (result, s1) := adapterDelete existingItem.id s
    (.ok (result, .afterDelete existingItem.id), s1)

def deleteSingle (L : ListDef) (ctx : Ctx) (existingItem : Item)
    (mutationState : Option Unit) (s : St) : Except Err (Option Item) × St :=
  nestedMutation mutationState (deleteSingleBody L existingItem) s

/-- `Promise.all` over per-item single mutations, modelled as a sequential
fan-out (§5: apparent concurrency only). -/
def runSingles {α β : Type} (step : α → St → Except Err β × St) :
    List α → St → Except Err (List β) × St
  | [], s => (.ok [], s)
  | x :: xs, s =>
    match step x s with
    | (.error e, s1) => (.error e, s1)
    | (.ok b, s1) =>
      match runSingles step xs s1 with
      | (.error e, s2) => (.error e, s2)
      | (.ok bs, s2) => (.ok (b :: bs), s2)

/-! ## The pipeline entry points -/

def createMutation (L : ListDef) (ctx : Ctx) (data : Data)
    (mutationState : Option Unit) (s : St) : Except Err Item × St :=
  let operation := "create"
  let gqlName := L.gqlNames.createMutationName
  match checkListAccess ctx operation gqlName s with
  | (.error e, s1) => (.error e, s1)
  | (.ok _, s1) =>
    match checkFieldAccess L ctx operation [(none, data)] gqlName with
    | .error e => (.error e, s1)
    | .ok _ => createSingle L ctx data none mutationState s1

def createManyMutation (L : ListDef) (ctx : Ctx) (data : List Data)
    (mutationState : Option Unit) (s : St) : Except Err (List Item) × St :=
  let operation := "create"
  let gqlName := L.gqlNames.createManyMutationName
  match checkListAccess ctx operation gqlName s with
  | (.error e, s1) => (.error e, s1)
  | (.ok _, s1) =>
    match checkFieldAccess L ctx operation (data.map (fun d => (none, d))) gqlName with
    | .error e => (.error e, s1)
    | .ok _ => runSingles (fun d s => createSingle L ctx d none mutationState s) data s1

def updateMutation (L : ListDef) (ctx : Ctx) (id : ItemId) (data : Data)
    (mutationState : Option Unit) (s : St) : Except Err (Option Item) × St :=
  let operation := "update"
  let gqlName := L.gqlNames.updateMutationName
  match checkListAccess ctx operation gqlName s with
  | (.error e, s1) => (.error e, s1)
  | (.ok access, s1) =>
    match getAccessControlledItem id access operation gqlName s1 with
    | (.error e, s2) => (.error e, s2)
    | (.ok existingItem, s2) =>
      match checkFieldAccess L ctx operation [(some existingItem, data)] gqlName with
      | .error e => (.error e, s2)
      | .ok _ => updateSingle L ctx id data existingItem mutationState s2

/-- `updateManyMutation`; `zipObj` pairs the access-controlled items with
the ids and payloads index-wise. -/
def updateManyMutation (L : ListDef) (ctx : Ctx) (data : List (ItemId × Data))
    (mutationState : Option Unit) (s : St) : Except Err (List (Option Item)) × St :=
  let operation := "update"
  let gqlName := L.gqlNames.updateManyMutationName
  let ids := data.map (fun d => d.1)
  match checkListAccess ctx operation gqlName s with
  | (.error e, s1) => (.error e, s1)
  | (.ok access, s1) =>
    let (existingItems, s2) := getAccessControlledItems ids access s1
    let itemsToUpdate := existingItems.zip data
    match checkFieldAccess L ctx operation
        (itemsToUpdate.map (fun p => (some p.1, p.2.2))) gqlName with
    | .error e => (.error e, s2)
    | .ok _ =>
      runSingles (fun p s => updateSingle L ctx p.2.1 p.2.2 p.1 mutationState s)
        itemsToUpdate s2

def deleteMutation (L : ListDef) (ctx : Ctx) (id : ItemId)
    (mutationState : Option Unit) (s : St) : Except Err (Option Item) × St :=
  let operation := "delete"
  let gqlName := L.gqlNames.deleteMutationName
  match checkListAccess ctx operation gqlName s with
  | (.error e, s1) => (.error e, s1)
  | (.ok access, s1) =>
    match getAccessControlledItem id access operation gqlName s1 with
    | (.error e, s2) => (.error e, s2)
    | (.ok existingItem, s2) => deleteSingle L ctx existingItem mutationState s2

def deleteManyMutation (L : ListDef) (ctx : Ctx) (ids : List ItemId)
    (mutationState : Option Unit) (s : St) : Except Err (List (Option Item)) × St :=
  let operation := "delete"
  let gqlName := L.gqlNames.deleteManyMutationName
  match checkListAccess ctx operation gqlName s with
  | (.error e, s1) => (.error e, s1)
  | (.ok access, s1) =>
    let (existingItems, s2) := getAccessControlledItems ids access s1
    runSingles (fun it s => deleteSingle L ctx it mutationState s) existingItems s2

/-- `mergeWhereClause(args, access)` from `@keystone-alpha/utils`
(external): AND-merges a declarative clause into a query; a non-object
access value merges nothing. -/
def mergeWhereClause (args : Where) (access : ListAccess) : Where :=
  match access with
  | .filter f => { args with clauses := args.clauses ++ [f] }
  | _ => args

def listQuery (L : ListDef) (ctx : Ctx) (args : Where) (s : St) :
    Except Err (List Item) × St :=
  match checkListAccess ctx "read" L.gqlNames.listQueryName s with
  | (.error e, s1) => (.error e, s1)
  | (.ok access, s1) =>
    let (items, s2) := adapterItemsQuery (mergeWhereClause args access) s1
    (.ok items, s2)

/-- The `getCount` closure of `listQueryMeta` (the access check runs when
the count is evaluated). -/
def listQueryMetaCount (L : ListDef) (ctx : Ctx) (args : Where) (s : St) :
    Except Err Nat × St :=
  match checkListAccess ctx "read" L.gqlNames.listQueryMetaName s with
  | (.error e, s1) => (.error e, s1)
  | (.ok access, s1) =>
    let (count, s2) := adapterItemsQueryMeta (mergeWhereClause args access) s1
    (.ok count, s2)

def itemQuery (L : ListDef) (ctx : Ctx) (id : ItemId) (s : St) :
    Except Err Item × St :=
  match checkListAccess ctx "read" L.gqlNames.itemQueryName s with
  | (.error e, s1) => (.error e, s1)
  | (.ok access, s1) => getAccessControlledItem id access "read" L.gqlNames.itemQueryName s1

/-! ## Nested write trees

A root write whose relationship resolution triggers nested writes is the
cited `_nestedMutation` with a mutation body that recursively re-enters
`_nestedMutation`, sharing the root's mutation state.  `treeMutation`
realises exactly that shape: each node performs its nested child writes
inside its own mutation body (children complete before the parent's after
hook is pushed), its after hook is `afterChange` of its id. -/
inductive WriteTree
  | node (id : ItemId) (children : List WriteTree)

def rootId : WriteTree → ItemId
  | .node i _ => i

mutual
def treeMutation : WriteTree → Option Unit → St → Except Err ItemId × St
  | .node i children, mutationState, s =>
    nestedMutation mutationState (fun s0 =>
      let s1 := treeChildren children s0
      (.ok (i, AfterEvent.afterChange i), s1)) s

def treeChildren : List WriteTree → St → St
  | [], s => s
  | c :: rest, s => treeChildren rest (treeMutation c (some ()) s).2
end

mutual
/-- The order in which the shared stack receives after hooks: children
first (left to right), then the node itself. -/
def postorder : WriteTree → List AfterEvent
  | .node i children => postorderList children ++ [AfterEvent.afterChange i]

def postorderList : List WriteTree → List AfterEvent
  | [] => []
  | c :: rest => postorder c ++ postorderList rest
end

/-! ## Shared example configurations for concrete runs -/

def plainList : ListDef := { key := "User", fields := [] }

def ctxDenyAll : Ctx := { listAccess := fun _ => .deny, fieldAccess := fun _ _ _ => true }

/-- C4: whenever the evaluated list-level access rule for an operation is
falsy, every pipeline entry point for that operation — single and batch
create, update, delete, and the read queries — returns `AccessDeniedError`
(public payload `{ type: opToType[op], target: gqlName }`) with the state,
and in particular the adapter-call trace, untouched: no storage call of any
kind is made. -/
theorem c4_list_deny_aborts_before_storage (L : ListDef) (ctx : Ctx) (s : St)
    (data : Data) (datas : List Data) (id : ItemId) (upds : List (ItemId × Data))
    (ids : List ItemId) (args : Where) (ms : Option Unit) :
    (ctx.listAccess "create" = .deny →
      createMutation L ctx data ms s =
        (.error (.accessDenied { type := opToType "create",
                                 target := L.gqlNames.createMutationName }), s) ∧
      createManyMutation L ctx datas ms s =
        (.error (.accessDenied { type := opToType "create",
                                 target := L.gqlNames.createManyMutationName }), s)) ∧
    (ctx.listAccess "update" = .deny →
      updateMutation L ctx id data ms s =
        (.error (.accessDenied { type := opToType "update",
                                 target := L.gqlNames.updateMutationName }), s) ∧
      updateManyMutation L ctx upds ms s =
        (.error (.accessDenied { type := opToType "update",
                                 target := L.gqlNames.updateManyMutationName }), s)) ∧
    (ctx.listAccess "delete" = .deny →
      deleteMutation L ctx id ms s =
        (.error (.accessDenied { type := opToType "delete",
                                 target := L.gqlNames.deleteMutationName }), s) ∧
      deleteManyMutation L ctx ids ms s =
        (.error (.accessDenied { type := opToType "delete",
                                 target := L.gqlNames.deleteManyMutationName }), s)) ∧
    (ctx.listAccess "read" = .deny →
      listQuery L ctx args s =
        (.error (.accessDenied { type := opToType "read",
                                 target := L.gqlNames.listQueryName }), s) ∧
      listQueryMetaCount L ctx args s =
        (.error (.accessDenied { type := opToType "read",
                                 target := L.gqlNames.listQueryMetaName }), s) ∧
      itemQuery L ctx id s =
        (.error (.accessDenied { type := opToType "read",
                                 target := L.gqlNames.itemQueryName }), s)) := by
  refine ⟨fun h => ⟨?_, ?_⟩, fun h => ⟨?_, ?_⟩, fun h => ⟨?_, ?_⟩, fun h => ⟨?_, ?_, ?_⟩⟩
  · simp [createMutation, checkListAccess, h]
  · simp [createManyMutation, checkListAccess, h]
  · simp [updateMutation, checkListAccess, h]
  · simp [updateManyMutation, checkListAccess, h]
  · simp [deleteMutation, checkListAccess, h]
  · simp [deleteManyMutation, checkListAccess, h]
  · simp [listQuery, checkListAccess, h]
  · simp [listQueryMetaCount, checkListAccess, h]
  · simp [itemQuery, checkListAccess, h]

/-- Witness for C4: with a context denying every operation, the create
entry point returns `AccessDeniedError` and the state (hence the trace) is
untouched. -/
theorem c4_list_deny_aborts_before_storage_witness :
    ctxDenyAll.listAccess "create" = ListAccess.deny ∧
    createMutation plainList ctxDenyAll [] none {} =
      (.error (.accessDenied { type := opToType "create",
                               target := plainList.gqlNames.createMutationName }), {}) :=
  ⟨rfl,
   ((c4_list_deny_aborts_before_storage plainList ctxDenyAll {} [] [] 1 [] [] {} none).1
     rfl).1⟩

/-- C3: in `getAccessControlledItem` every failure path — the id provably
excluded by the filter, the id not stored at all (even under full access),
or the item stored but filtered out of the query — throws with one and the
same public payload `{ type: opToType[operation], target: gqlName }`; no
"not found" variant exists, so the cases are observably identical. -/
theorem c3_lookup_failures_indistinguishable (operation gqlName : String)
    (id : ItemId) (access : ListAccess) (s : St) :
    (∀ e s2, getAccessControlledItem id access operation gqlName s = (.error e, s2) →
      e = .accessDenied { type := opToType operation, target := gqlName }) ∧
    (access = .allow → s.db.find? (fun it => it.id == id) = none →
      (getAccessControlledItem id access operation gqlName s).1 =
        .error (.accessDenied { type := opToType operation, target := gqlName })) ∧
    (∀ f, access = .filter f → idExcluded f id = true →
      (getAccessControlledItem id access operation gqlName s).1 =
        .error (.accessDenied { type := opToType operation, target := gqlName })) ∧
    (∀ f, access = .filter f → idExcluded f id = false →
      (∀ it ∈ s.db, matchesAF { f with id := some id } it = false) →
      (getAccessControlledItem id access operation gqlName s).1 =
        .error (.accessDenied { type := opToType operation, target := gqlName })) := by
  refine ⟨?_, ?_, ?_, ?_⟩
  · intro e s2 hrun
    cases access <;>
      simp only [getAccessControlledItem, adapterFindById, adapterItemsQuery] at hrun <;>
      (repeat' split at hrun) <;> simp_all
  · intro ha hfind
    subst ha
    simp [getAccessControlledItem, adapterFindById, hfind]
  · intro f ha hex
    subst ha
    simp [getAccessControlledItem, accessFilter, hex]
  · intro f ha hex hnone
    subst ha
    have hfil : s.db.filter (matchesWhere
        { clauses := [{ f with id := some id }], first := some 1 }) = [] := by
      rw [List.filter_eq_nil_iff]
      intro it hit
      simp [matchesWhere, hnone it hit]
    simp [getAccessControlledItem, accessFilter, hex, adapterItemsQuery, hfil, takeFirst]

/-- Witness for C3: a db storing only item 1; requesting the missing id 5
under full access and requesting the stored id 1 under a filter
`{ id_not: 1 }` that excludes it produce the identical public error. -/
theorem c3_lookup_failures_indistinguishable_witness :
    ((none : Option Item) = none) ∧
    (getAccessControlledItem 5 .allow "update" "updateUser"
        { db := [{ id := 1, fields := [] }] }).1 =
      .error (.accessDenied { type := opToType "update", target := "updateUser" }) ∧
    (getAccessControlledItem 1 (.filter { id_not := some 1 }) "update" "updateUser"
        { db := [{ id := 1, fields := [] }] }).1 =
      .error (.accessDenied { type := opToType "update", target := "updateUser" }) :=
  ⟨rfl,
   (c3_lookup_failures_indistinguishable "update" "updateUser" 5 .allow
       { db := [{ id := 1, fields := [] }] }).2.1 rfl (by decide),
   (c3_lookup_failures_indistinguishable "update" "updateUser" 1
       (.filter { id_not := some 1 })
       { db := [{ id := 1, fields := [] }] }).2.2.1 _ rfl (by decide)⟩

/-- C5: `getAccessControlledItems` narrows the requested ids against the
filter's allowed/disallowed id sets purely in memory first: when no allowed
id was requested, or every requested id is explicitly disallowed, it
returns `[]` with the state — hence the storage trace — untouched.
Otherwise it issues the single merged query and silently returns exactly
the accessible items; its return type carries no error channel, so an
excluded id can never raise. -/
theorem c5_batch_lookup_shortcircuit_and_silence (ids : List ItemId)
    (f : AccessFilter) (s : St) (h : ids ≠ []) :
    (gacShortCircuit f (jsUnique ids) = true →
      getAccessControlledItems ids (.filter f) s = ([], s)) ∧
    (gacShortCircuit f (jsUnique ids) = false →
      getAccessControlledItems ids (.filter f) s =
        (s.db.filter (matchesWhere (gacWhere f (jsUnique ids))),
         { s with trace := s.trace ++ [.itemsQuery (gacWhere f (jsUnique ids))] })) := by
  constructor
  · intro hsc
    simp [getAccessControlledItems, h, accessFilter, hsc]
  · intro hsc
    simp [getAccessControlledItems, h, accessFilter, hsc, adapterItemsQuery, takeFirst,
      gacWhere]

/-- Witness for C5, the spec's scenario: batch lookup of ids 1, 2, 3 where
the filter `{ id_not: 2 }` excludes id 2 returns exactly the two
accessible items, silently. -/
theorem c5_batch_lookup_shortcircuit_and_silence_witness :
    ([1, 2, 3] ≠ ([] : List ItemId)) ∧
    gacShortCircuit { id_not := some 2 } (jsUnique [1, 2, 3]) = false ∧
    getAccessControlledItems [1, 2, 3] (.filter { id_not := some 2 })
        { db := [{ id := 1, fields := [] }, { id := 2, fields := [] },
                 { id := 3, fields := [] }] } =
      ([{ id := 1, fields := [] }, { id := 3, fields := [] }],
       { db := [{ id := 1, fields := [] }, { id := 2, fields := [] },
                { id := 3, fields := [] }],
         trace := [.itemsQuery (gacWhere { id_not := some 2 } (jsUnique [1, 2, 3]))] }) := by
  refine ⟨by decide, by decide, ?_⟩
  have h2 := (c5_batch_lookup_shortcircuit_and_silence [1, 2, 3] { id_not := some 2 }
    { db := [{ id := 1, fields := [] }, { id := 2, fields := [] },
             { id := 3, fields := [] }] } (by decide)).2 (by decide)
  exact h2.trans (by decide)

/-! ## C1: validation-error aggregation in `_validateHook` -/

def fieldC1 : FieldDef :=
  { path := "name",
    hooks := { validateInput := some (fun _ => [ValErr.mk "field failed"]) } }

def listC1 : ListDef :=
  { key := "User", fields := [fieldC1],
    hooks := { validateInput := some (fun _ => [ValErr.mk "list failed"]) } }

/-- C1 counterexample: with a field user hook adding "field failed" and a
list-level hook that would add "list failed", the phase throws a
`ValidationFailureError` whose public messages are only the field-level
group; the list hook's message is missing from it (the list hook is never
invoked), so the failure groups are raised one at a time, not as one full
aggregate. -/
theorem c1_counterexample :
    validateHook listC1 {} [fieldC1] "create" ValidatePhase.validateInput =
      .error (.validationFailure { messages := ["field failed"], listKey := "User",
                                   operation := "create" }) ∧
    applyValHook (listValidate listC1 ValidatePhase.validateInput) {} =
      [ValErr.mk "list failed"] ∧
    "list failed" ∉ ["field failed"] :=
  ⟨rfl, rfl, by decide⟩

/-- C1 amended: a validation phase raises at most one
`ValidationFailureError`, aggregated per group.  All field-level failures
(built-ins and field user hooks) are collected and, when any exist, thrown
together in a single error carrying every field-level message — the
list-level hook is then never invoked.  Only when the field level is clean
does the list hook run, and its failures are thrown as a single error
carrying every list-hook message.  The two groups are never combined. -/
theorem c1_amended_groupwise_aggregation (L : ListDef) (args : HookArgs)
    (fields : List FieldDef) (operation : String) (phase : ValidatePhase) :
    (fieldPhaseErrors fields phase args ≠ [] →
      validateHook L args fields operation phase =
        .error (validationFailureErr L (fieldPhaseErrors fields phase args) operation)) ∧
    (fieldPhaseErrors fields phase args = [] →
      ∀ h, listValidate L phase = some h → h args ≠ [] →
        validateHook L args fields operation phase =
          .error (validationFailureErr L (h args) operation)) := by
  constructor
  · intro hne
    simp [validateHook, hne]
  · intro hz h hl hne
    simp [validateHook, hz, hl, hne]

/-- Witness for C1's amended claim: the concrete list of the
counterexample run, with one field-level message collected, throws exactly
the full field-level aggregate. -/
theorem c1_amended_groupwise_aggregation_witness :
    (fieldPhaseErrors [fieldC1] ValidatePhase.validateInput {} ≠ []) ∧
    validateHook listC1 {} [fieldC1] "create" ValidatePhase.validateInput =
      .error (validationFailureErr listC1
        (fieldPhaseErrors [fieldC1] ValidatePhase.validateInput {}) "create") :=
  ⟨by decide,
   (c1_amended_groupwise_aggregation listC1 {} [fieldC1] "create"
      ValidatePhase.validateInput).1 (by decide)⟩

/-! ## C2: after-change ordering across nested mutations -/

mutual
/-- A nested `_nestedMutation` call shares the caller's mutation state: it
appends the postorder of its subtree (children's hooks first, its own
last) to the stack and flushes nothing. -/
theorem treeMutation_nested_spec (t : WriteTree) (s : St) :
    treeMutation t (some ()) s =
      (.ok (rootId t),
       { s with afterChangeStack := s.afterChangeStack ++ postorder t }) := by
  cases t with
  | node i children =>
    rw [treeMutation]
    simp [nestedMutation, treeChildren_spec children s, postorder, rootId]

theorem treeChildren_spec (cs : List WriteTree) (s : St) :
    treeChildren cs s =
      { s with afterChangeStack := s.afterChangeStack ++ postorderList cs } := by
  cases cs with
  | nil => rw [treeChildren]; simp [postorderList]
  | cons c rest =>
    rw [treeChildren]
    rw [treeMutation_nested_spec c s]
    rw [treeChildren_spec rest _]
    simp [postorderList]
end

/-- The root call: the stack holds the postorder of the whole tree and is
drained last-pushed-first into the invocation log, so the log is the
reversed postorder; everything is flushed before the root returns. -/
theorem treeMutation_root_spec (t : WriteTree) (s : St) :
    treeMutation t none s =
      (.ok (rootId t),
       { s with afterChangeStack := [],
                hookLog := s.hookLog ++ (postorder t).reverse }) := by
  cases t with
  | node i children =>
    rw [treeMutation]
    simp [nestedMutation, treeChildren_spec, postorder, rootId, drainOrder_eq_reverse]

/-- C2 counterexample: a root write 0 with one nested write 1.  When the
root returns, the invocation log is `[afterChange 0, afterChange 1]`: the
parent's after-change hook ran BEFORE the nested write's, not after as the
claim states. -/
theorem c2_counterexample :
    (treeMutation (WriteTree.node 0 [WriteTree.node 1 []]) none {}).2.hookLog =
      [AfterEvent.afterChange 0, AfterEvent.afterChange 1] ∧
    [AfterEvent.afterChange 0, AfterEvent.afterChange 1] ≠
      [AfterEvent.afterChange 1, AfterEvent.afterChange 0] := by
  constructor
  · rw [treeMutation_root_spec]
    simp [postorder, postorderList]
  · decide

/-- C2 amended: the after-change stack is drained by the root in
last-pushed-first order, and a nested write pushes its hook before its
parent does; hence the invocation log when the root returns is the
reversed postorder of the write tree — every hook (root and nested) has
executed before the root mutation returns, the root's own `afterChange`
firing first, each parent's before its children's. -/
theorem c2_amended_root_first_all_flushed (t : WriteTree) (s : St) :
    treeMutation t none s =
      (.ok (rootId t),
       { s with afterChangeStack := [],
                hookLog := s.hookLog ++ (postorder t).reverse }) ∧
    ((postorder t).reverse).head? = some (.afterChange (rootId t)) := by
  refine ⟨treeMutation_root_spec t s, ?_⟩
  cases t with
  | node i children => simp [postorder, rootId]

/-! ## C7: persist outcome and the deferred item handle -/

def ctxAllowAll : Ctx := { listAccess := fun _ => .allow, fieldAccess := fun _ _ _ => true }

/-- The resolved data `_createSingle` hands to validation and persist:
defaults, then relationship resolution, then input resolution. -/
def createResolvedData (L : ListDef) (data : Data) (existingItem : Option Item) : Data :=
  resolveInputFn L (resolveRelationshipFn L (resolveDefaultsFn L data) existingItem)
    existingItem "create" data

/-- C7: in `_createSingle`, once validation passes, the persist step drives
the deferred item handle.  If the adapter's `create` fails, the handle is
rejected with that storage error, the same error is re-raised to the
caller, and the create's afterChange hook is neither enqueued (the stack
stays empty) nor invoked (the hook log is unchanged).  If it succeeds, the
handle resolves with the newly created item. -/
theorem c7_persist_outcome_routes_deferred (L : ListDef) (ctx : Ctx) (data : Data)
    (existingItem : Option Item) (s : St) (code : Nat)
    (hval : validateInputFn L (createResolvedData L data existingItem) existingItem
      "create" data = .ok ()) :
    (s.createFail = some code →
      createSingle L ctx data existingItem none s =
        (.error (.storage code),
         { s with afterChangeStack := [],
                  trace := s.trace ++ [.create (createResolvedData L data existingItem)],
                  lastDeferred := some (.rejected (.storage code)) })) ∧
    (s.createFail = none →
      createSingle L ctx data existingItem none s =
        (.ok { id := s.nextId, fields := createResolvedData L data existingItem },
         { s with
             db := s.db ++
               [{ id := s.nextId, fields := createResolvedData L data existingItem }],
             trace := s.trace ++ [.create (createResolvedData L data existingItem)],
             nextId := s.nextId + 1,
             afterChangeStack := [],
             hookLog := s.hookLog ++ [.afterChange s.nextId],
             lastDeferred := some (.resolved
               { id := s.nextId, fields := createResolvedData L data existingItem }) })) := by
  simp only [createResolvedData] at hval
  constructor
  · intro hf
    simp [createSingle, nestedMutation, createSingleBody, hval, adapterCreate, hf,
      createResolvedData]
  · intro hf
    simp [createSingle, nestedMutation, createSingleBody, hval, adapterCreate, hf,
      drainOrder_eq_reverse, createResolvedData]

/-- Witness for C7: a list with no fields and an adapter whose `create` is
set to fail with storage error 7 — the deferred handle ends rejected with
that error, the error is re-raised, and no after hook was enqueued or
run. -/
theorem c7_persist_outcome_routes_deferred_witness :
    validateInputFn plainList (createResolvedData plainList [] none) none "create" [] =
      .ok () ∧
    createSingle plainList ctxAllowAll [] none none { createFail := some 7 } =
      (.error (.storage 7),
       { createFail := some 7, trace := [.create []],
         lastDeferred := some (.rejected (.storage 7)) }) :=
  ⟨rfl,
   (c7_persist_outcome_routes_deferred plainList ctxAllowAll [] none
      { createFail := some 7 } 7 rfl).1 rfl⟩

/-! ## C8: required-field validation on create -/

theorem jsGetD_of_not_hasKey (d : Data) (p : String) (h : hasKey d p = false) :
    jsGetD d p = .undefined := by
  unfold hasKey at h
  unfold jsGetD
  cases hl : jsLookup d p with
  | none => rfl
  | some v => rw [hl] at h; simp at h

theorem jsLookup_objMergeList_notMem (a : Data) (kvs : Data) (p : String)
    (h : ∀ kv ∈ kvs, kv.1 ≠ p) :
    jsLookup (objMergeList a kvs) p = jsLookup a p := by
  induction kvs generalizing a with
  | nil => rfl
  | cons kv rest ih =>
    have h1 : kv.1 ≠ p := h kv (by simp)
    calc jsLookup (objMergeList a (kv :: rest)) p
        = jsLookup (objMergeList (objSet a kv.1 kv.2) rest) p := rfl
      _ = jsLookup (objSet a kv.1 kv.2) p := ih _ (fun x hx => h x (by simp [hx]))
      _ = jsLookup a p := jsLookup_objSet_ne a kv.1 p kv.2 (Ne.symm h1)

theorem mem_fieldsFromObject (L : ListDef) (d : Data) (f : FieldDef)
    (h : f ∈ fieldsFromObject L d) : f ∈ L.fields := by
  unfold fieldsFromObject at h
  rw [List.mem_filterMap] at h
  obtain ⟨kv, _, hfind⟩ := h
  exact List.mem_of_find?_eq_some hfind

theorem jsLookup_fieldsMap_of_hasKey (L : ListDef) (l : Data) (g : String → JSVal)
    (p : String) (fp : FieldDef) (hfp : fp ∈ L.fields) (hfpp : fp.path = p)
    (hk : hasKey l p = true) :
    jsLookup ((fieldsFromObject L l).map (fun f => (f.path, g f.path))) p =
      some (g p) := by
  induction l with
  | nil => simp [hasKey, jsLookup] at hk
  | cons kv t ih =>
    obtain ⟨k, v⟩ := kv
    unfold fieldsFromObject
    rw [List.filterMap_cons]
    by_cases hkp : k = p
    · subst hkp
      have hsome : (L.fields.find? (fun f => f.path == k)).isSome := by
        rw [List.find?_isSome]
        exact ⟨fp, hfp, by simp [hfpp]⟩
      obtain ⟨f', hf'⟩ := Option.isSome_iff_exists.mp hsome
      have hf'p : f'.path = k := by
        have := List.find?_some hf'
        simpa using this
      simp only [hf']
      simp [jsLookup, hf'p]
    · have hkt : hasKey t p = true := by
        simpa only [hasKey, jsLookup, if_neg hkp] using hk
      cases hfind : L.fields.find? (fun f => f.path == k) with
      | none => exact ih hkt
      | some f' =>
        have hf'p : f'.path = k := by
          have := List.find?_some hfind
          simpa using this
        simp only [List.map_cons, jsLookup, hf'p, hkp, if_neg hkp]
        exact ih hkt

theorem jsLookup_fieldsMap_of_not_hasKey (L : ListDef) (l : Data) (g : String → JSVal)
    (p : String) (hk : hasKey l p = false) :
    jsLookup ((fieldsFromObject L l).map (fun f => (f.path, g f.path))) p = none := by
  induction l with
  | nil => rfl
  | cons kv t ih =>
    obtain ⟨k, v⟩ := kv
    have hkp : k ≠ p := by
      intro hkp
      unfold hasKey jsLookup at hk
      simp [hkp] at hk
    have hkt : hasKey t p = false := by
      simpa only [hasKey, jsLookup, if_neg hkp] using hk
    unfold fieldsFromObject
    rw [List.filterMap_cons]
    cases hfind : L.fields.find? (fun f => f.path == k) with
    | none => exact ih hkt
    | some f' =>
      have hf'p : f'.path = k := by
        have := List.find?_some hfind
        simpa using this
      simp only [List.map_cons, jsLookup, hf'p]
      rw [if_neg hkp]
      exact ih hkt

/-- No resolveInput hooks are configured anywhere on the list: every field
built-in defaults to passing the value through, no field or list user hook
overrides resolution. -/
def noResolveHooks (L : ListDef) : Bool :=
  L.fields.all (fun f => f.resolveInputBI.isNone && f.hooks.resolveInput.isNone) &&
  L.hooks.resolveInput.isNone

theorem resolveInputFn_of_noResolveHooks (L : ListDef) (d : Data) (e : Option Item)
    (operation : String) (orig : Data) (hnr : noResolveHooks L = true) :
    resolveInputFn L d e operation orig =
      (fieldsFromObject L d).map (fun f => (f.path, jsGetD d f.path)) := by
  unfold noResolveHooks at hnr
  rw [Bool.and_eq_true, List.all_eq_true] at hnr
  obtain ⟨hfields, hlist⟩ := hnr
  rw [Option.isNone_iff_eq_none] at hlist
  simp only [resolveInputFn, hlist]
  have hfm : (fieldsFromObject L d).filterMap
      (fun f => f.hooks.resolveInput.map
        (fun h => (f.path, h { resolvedData := d, existingItem := e,
                               originalInput := orig }))) = [] := by
    rw [List.filterMap_eq_nil_iff]
    intro f hf
    have hmem := mem_fieldsFromObject L d f hf
    have := hfields f hmem
    rw [Bool.and_eq_true] at this
    have h2 : f.hooks.resolveInput = none := Option.isNone_iff_eq_none.mp this.2
    rw [h2]
    rfl
  rw [hfm]
  have hmg : objMergeList ((fieldsFromObject L d).map
      (fun f => (f.path, applyFieldResolve f.resolveInputBI
        { resolvedData := d, existingItem := e, originalInput := orig } f.path))) [] =
      (fieldsFromObject L d).map
        (fun f => (f.path, applyFieldResolve f.resolveInputBI
          { resolvedData := d, existingItem := e, originalInput := orig } f.path)) := rfl
  rw [hmg]
  apply List.map_congr_left
  intro f hf
  have hmem := mem_fieldsFromObject L d f hf
  have := hfields f hmem
  rw [Bool.and_eq_true] at this
  have hbi : f.resolveInputBI = none := Option.isNone_iff_eq_none.mp this.1
  rw [hbi]
  rfl

theorem resolveRelationshipFn_preserves_nonrel (L : ListDef) (d : Data)
    (e : Option Item) (hnd : (L.fields.map (fun f => f.path)).Nodup)
    (fp : FieldDef) (hfp : fp ∈ L.fields) (hrel : fp.isRelationship = false) :
    jsLookup (resolveRelationshipFn L d e) fp.path = jsLookup d fp.path := by
  unfold resolveRelationshipFn
  apply jsLookup_objMergeList_notMem
  intro kv hkv
  rw [List.mem_map] at hkv
  obtain ⟨f', hf', hkveq⟩ := hkv
  rw [List.mem_filter] at hf'
  obtain ⟨hf'obj, hf'rel⟩ := hf'
  have hf'mem : f' ∈ L.fields := mem_fieldsFromObject L d f' hf'obj
  intro hpp
  have hkv1 : kv.1 = f'.path := by rw [← hkveq]
  have hpaths : f'.path = fp.path := by rw [← hkv1, hpp]
  have heq : f' = fp := List.inj_on_of_nodup_map hnd hf'mem hfp hpaths
  rw [heq, hrel] at hf'rel
  cases hf'rel

theorem createResolvedData_required_value (L : ListDef) (data : Data)
    (e : Option Item) (hnr : noResolveHooks L = true)
    (hnd : (L.fields.map (fun f => f.path)).Nodup)
    (fp : FieldDef) (hfp : fp ∈ L.fields) (hrel : fp.isRelationship = false) :
    jsGetD (createResolvedData L data e) fp.path =
      jsGetD (resolveDefaultsFn L data) fp.path := by
  unfold createResolvedData
  rw [resolveInputFn_of_noResolveHooks _ _ _ _ _ hnr]
  have hlk : jsLookup (resolveRelationshipFn L (resolveDefaultsFn L data) e) fp.path =
      jsLookup (resolveDefaultsFn L data) fp.path :=
    resolveRelationshipFn_preserves_nonrel L (resolveDefaultsFn L data) e hnd fp hfp hrel
  by_cases hk : hasKey (resolveRelationshipFn L (resolveDefaultsFn L data) e) fp.path
  · have h1 := jsLookup_fieldsMap_of_hasKey L
      (resolveRelationshipFn L (resolveDefaultsFn L data) e)
      (jsGetD (resolveRelationshipFn L (resolveDefaultsFn L data) e))
      fp.path fp hfp rfl hk
    unfold jsGetD at h1 ⊢
    rw [h1, hlk]
    rfl
  · have hk' : hasKey (resolveRelationshipFn L (resolveDefaultsFn L data) e) fp.path
        = false := by simpa using hk
    have h1 := jsLookup_fieldsMap_of_not_hasKey L
      (resolveRelationshipFn L (resolveDefaultsFn L data) e)
      (jsGetD (resolveRelationshipFn L (resolveDefaultsFn L data) e))
      fp.path hk'
    have h2 : jsLookup (resolveDefaultsFn L data) fp.path = none := by
      rw [← hlk]
      unfold hasKey at hk'
      cases hc : jsLookup (resolveRelationshipFn L (resolveDefaultsFn L data) e) fp.path
      · rfl
      · rw [hc] at hk'; simp at hk'
    unfold jsGetD at h1 ⊢
    rw [h1, h2]

theorem requiredMissing_createResolvedData (L : ListDef) (data : Data)
    (e : Option Item) (hnr : noResolveHooks L = true)
    (hnd : (L.fields.map (fun f => f.path)).Nodup) :
    requiredMissing L "create" (createResolvedData L data e) =
      requiredMissing L "create" (resolveDefaultsFn L data) := by
  unfold requiredMissing
  apply List.filter_congr
  intro f hf
  unfold requiredViolated
  cases hrel : f.isRelationship with
  | true => simp [hrel]
  | false =>
    rw [createResolvedData_required_value L data e hnr hnd f hf hrel]
    have hfalse : (("create" : String) == "update") = false := by decide
    simp [hfalse]

/-- C8 amended: for a create where — after `_resolveDefaults` has merged
field defaults — some required non-relationship field is still left
undefined or null (and no resolveInput hook is configured that could
supply it), `_createSingle` raises a single `ValidationFailureError` whose
messages reference exactly the omitted fields' paths (one per field), and
the adapter is never called: the state is unchanged apart from the
just-created deferred handle left pending.  (The claim as stated fails
when the required field carries a default value; the default fills it and
validation passes.) -/
theorem c8_amended_required_missing_after_defaults (L : ListDef) (ctx : Ctx)
    (data : Data) (existingItem : Option Item) (s : St)
    (hnr : noResolveHooks L = true)
    (hnd : (L.fields.map (fun f => f.path)).Nodup)
    (hmiss : (requiredMissing L "create" (resolveDefaultsFn L data)).isEmpty = false) :
    createSingle L ctx data existingItem none s =
      (.error (validationFailureErr L
        ((requiredMissing L "create" (resolveDefaultsFn L data)).map
          (fun f => ValErr.mk (requiredMsg f.path))) "create"),
       { s with afterChangeStack := [], lastDeferred := some .pending }) := by
  have hreq := requiredMissing_createResolvedData L data existingItem hnr hnd
  simp only [createResolvedData] at hreq
  have hmap : ((requiredMissing L "create" (resolveDefaultsFn L data)).map
      (fun f => ValErr.mk (requiredMsg f.path))).isEmpty = false := by
    cases hcase : requiredMissing L "create" (resolveDefaultsFn L data) with
    | nil => rw [hcase] at hmiss; simp [List.isEmpty] at hmiss
    | cons a t => rfl
  simp [createSingle, nestedMutation, createSingleBody, validateInputFn, hreq, hmap]

def fieldC8 : FieldDef :=
  { path := "status", isRequired := true, defaultValue := some (JSVal.num 1) }

def listC8 : ListDef := { key := "User", fields := [fieldC8] }

/-- C8 counterexample: `status` is a required non-relationship field and
the create input omits it entirely, yet — because the field carries a
default value that `_resolveDefaults` fills in — no
`ValidationFailureError` is raised: the create succeeds and the storage
adapter's `create` IS called. -/
theorem c8_counterexample :
    jsLookup [] "status" = none ∧
    fieldC8.isRequired = true ∧
    fieldC8.isRelationship = false ∧
    createSingle listC8 ctxAllowAll [] none none {} =
      (.ok { id := 1, fields := [("status", JSVal.num 1)] },
       { db := [{ id := 1, fields := [("status", JSVal.num 1)] }],
         trace := [.create [("status", JSVal.num 1)]],
         nextId := 2,
         hookLog := [.afterChange 1],
         lastDeferred := some (.resolved
           { id := 1, fields := [("status", JSVal.num 1)] }) }) := by
  refine ⟨rfl, rfl, rfl, ?_⟩
  simp [createSingle, nestedMutation, createSingleBody, adapterCreate,
    drainOrder_eq_reverse, listC8, fieldC8, resolveDefaultsFn, resolveRelationshipFn,
    resolveInputFn, validateInputFn, requiredMissing, requiredViolated, jsGetD,
    fieldsFromObject, objMergeList, objSet, jsLookup, validateHook, fieldPhaseErrors,
    listValidate, builtinValidate, userValidate, applyFieldResolve, isNullOrUndefined,
    applyValHook]

def fieldC8b : FieldDef := { path := "name", isRequired := true }

def listC8b : ListDef := { key := "User", fields := [fieldC8b] }

/-- Witness for C8's amended claim: omitting the required, default-less
`name` on create yields the single aggregated failure and no storage
call. -/
theorem c8_amended_required_missing_after_defaults_witness :
    noResolveHooks listC8b = true ∧
    (listC8b.fields.map (fun f => f.path)).Nodup ∧
    (requiredMissing listC8b "create" (resolveDefaultsFn listC8b [])).isEmpty = false ∧
    createSingle listC8b ctxAllowAll [] none none {} =
      (.error (validationFailureErr listC8b
        ((requiredMissing listC8b "create" (resolveDefaultsFn listC8b [])).map
          (fun f => ValErr.mk (requiredMsg f.path))) "create"),
       { afterChangeStack := [], lastDeferred := some .pending }) :=
  ⟨rfl, by decide, rfl,
   c8_amended_required_missing_after_defaults listC8b ctxAllowAll [] none {}
     rfl (by decide) rfl⟩

/-! ## C6: field-level denial on writes -/

/-- The write calls (create/update/delete) recorded in a trace. -/
def writesOf (trace : List AdapterCall) : List AdapterCall := trace.filter isWriteCall

theorem isEmpty_false_of_ne_nil {α : Type} {l : List α} (h : l ≠ []) :
    l.isEmpty = false := by
  cases l with
  | nil => exact absurd rfl h
  | cons a t => rfl

theorem getACItem_writes (id : ItemId) (access : ListAccess)
    (operation gqlName : String) (s : St) :
    writesOf ((getAccessControlledItem id access operation gqlName s).2).trace =
      writesOf s.trace := by
  cases access with
  | allow =>
    simp only [getAccessControlledItem, adapterFindById]
    split
    next item s1 heq =>
      injection heq with h1 h2
      subst h2
      simp [writesOf, List.filter_append, isWriteCall]
    next s1 heq =>
      injection heq with h1 h2
      subst h2
      simp [writesOf, List.filter_append, isWriteCall]
  | deny =>
    simp only [getAccessControlledItem, adapterItemsQuery]
    split
    next => simp [writesOf]
    next =>
      split
      next item tail s1 heq =>
        injection heq with h1 h2
        subst h2
        simp [writesOf, List.filter_append, isWriteCall]
      next s1 heq =>
        injection heq with h1 h2
        subst h2
        simp [writesOf, List.filter_append, isWriteCall]
  | filter f =>
    simp only [getAccessControlledItem, adapterItemsQuery]
    split
    next => simp [writesOf]
    next =>
      split
      next item tail s1 heq =>
        injection heq with h1 h2
        subst h2
        simp [writesOf, List.filter_append, isWriteCall]
      next s1 heq =>
        injection heq with h1 h2
        subst h2
        simp [writesOf, List.filter_append, isWriteCall]

theorem getACItems_writes (ids : List ItemId) (access : ListAccess) (s : St) :
    writesOf ((getAccessControlledItems ids access s).2).trace = writesOf s.trace := by
  unfold getAccessControlledItems
  by_cases hid : ids.isEmpty
  · simp [hid, writesOf]
  · cases access with
    | allow => simp [hid, adapterItemsQuery, writesOf, List.filter_append, isWriteCall]
    | deny =>
      by_cases hsc : gacShortCircuit (accessFilter .deny) (jsUnique ids) <;>
        simp [hid, hsc, adapterItemsQuery, writesOf, List.filter_append, isWriteCall]
    | filter f =>
      by_cases hsc : gacShortCircuit (accessFilter (.filter f)) (jsUnique ids) <;>
        simp [hid, hsc, adapterItemsQuery, writesOf, List.filter_append, isWriteCall]

def fieldC6 : FieldDef := { path := "secret" }

def listC6 : ListDef := { key := "User", fields := [fieldC6] }

def ctxC6 : Ctx :=
  { listAccess := fun _ => .allow,
    fieldAccess := fun p _ _ => p != "secret" }

/-- C6 counterexample: an update whose input touches the denied field
`secret` does abort with `AccessDeniedError` listing the restricted path
and writes nothing — but a storage call HAS been made before the abort:
the id lookup `findById 1` is already in the trace, so "before any storage
call is made" is false for updates. -/
theorem c6_counterexample :
    updateMutation listC6 ctxC6 1 [("secret", JSVal.num 5)] none
        { db := [{ id := 1, fields := [("secret", JSVal.num 0)] }] } =
      (.error (.accessDenied { type := "mutation",
                               target := listC6.gqlNames.updateMutationName,
                               restrictedFields := some ["secret"] }),
       { db := [{ id := 1, fields := [("secret", JSVal.num 0)] }],
         trace := [.findById 1] }) ∧
    [AdapterCall.findById 1] ≠ [] :=
  ⟨rfl, by decide⟩

/-- C6 amended: for every write entry point, when the field-level check
finds any denied field present in the input the whole write aborts with
`AccessDeniedError` listing exactly the restricted field paths, and no
storage WRITE (create/update/delete) is ever issued — no sibling field is
written and no item is created or updated.  For creates no storage call at
all precedes the abort; for updates the access-controlled id lookup (a
read) has already been issued by the time the field check runs. -/
theorem c6_amended_denied_field_aborts_write (L : ListDef) (ctx : Ctx) (s : St) :
    (∀ data ms, ctx.listAccess "create" ≠ .deny →
      restrictedOf L ctx "create" [(none, data)] ≠ [] →
      createMutation L ctx data ms s =
        (.error (.accessDenied { type := opToType "create",
                                 target := L.gqlNames.createMutationName,
                                 restrictedFields :=
                                   some (restrictedOf L ctx "create" [(none, data)]) }),
         s)) ∧
    (∀ datas ms, ctx.listAccess "create" ≠ .deny →
      restrictedOf L ctx "create" (datas.map (fun d => (none, d))) ≠ [] →
      createManyMutation L ctx datas ms s =
        (.error (.accessDenied { type := opToType "create",
                                 target := L.gqlNames.createManyMutationName,
                                 restrictedFields :=
                                   some (restrictedOf L ctx "create"
                                     (datas.map (fun d => (none, d)))) }),
         s)) ∧
    (∀ id data ms access it s2, ctx.listAccess "update" = access → access ≠ .deny →
      getAccessControlledItem id access "update" L.gqlNames.updateMutationName s =
        (.ok it, s2) →
      restrictedOf L ctx "update" [(some it, data)] ≠ [] →
      updateMutation L ctx id data ms s =
        (.error (.accessDenied { type := opToType "update",
                                 target := L.gqlNames.updateMutationName,
                                 restrictedFields :=
                                   some (restrictedOf L ctx "update" [(some it, data)]) }),
         s2) ∧
      writesOf s2.trace = writesOf s.trace) ∧
    (∀ upds ms access items s2, ctx.listAccess "update" = access → access ≠ .deny →
      getAccessControlledItems (upds.map (fun d => d.1)) access s = (items, s2) →
      restrictedOf L ctx "update"
        ((items.zip upds).map (fun p => (some p.1, p.2.2))) ≠ [] →
      updateManyMutation L ctx upds ms s =
        (.error (.accessDenied { type := opToType "update",
                                 target := L.gqlNames.updateManyMutationName,
                                 restrictedFields :=
                                   some (restrictedOf L ctx "update"
                                     ((items.zip upds).map (fun p => (some p.1, p.2.2)))) }),
         s2) ∧
      writesOf s2.trace = writesOf s.trace) := by
  refine ⟨?_, ?_, ?_, ?_⟩
  · intro data ms hna hr
    have hie := isEmpty_false_of_ne_nil hr
    cases hac : ctx.listAccess "create" with
    | deny => exact absurd hac hna
    | allow => simp [createMutation, checkListAccess, hac, checkFieldAccess, hie]
    | filter f => simp [createMutation, checkListAccess, hac, checkFieldAccess, hie]
  · intro datas ms hna hr
    have hie := isEmpty_false_of_ne_nil hr
    cases hac : ctx.listAccess "create" with
    | deny => exact absurd hac hna
    | allow => simp [createManyMutation, checkListAccess, hac, checkFieldAccess, hie]
    | filter f => simp [createManyMutation, checkListAccess, hac, checkFieldAccess, hie]
  · intro id data ms access it s2 hacc hnd hget hr
    have hie := isEmpty_false_of_ne_nil hr
    have hw := getACItem_writes id access "update" L.gqlNames.updateMutationName s
    rw [hget] at hw
    refine ⟨?_, hw⟩
    cases access with
    | deny => exact absurd rfl hnd
    | allow => simp [updateMutation, checkListAccess, hacc, hget, checkFieldAccess, hie]
    | filter f => simp [updateMutation, checkListAccess, hacc, hget, checkFieldAccess, hie]
  · intro upds ms access items s2 hacc hnd hget hr
    have hie := isEmpty_false_of_ne_nil hr
    have hw := getACItems_writes (upds.map (fun d => d.1)) access s
    rw [hget] at hw
    refine ⟨?_, hw⟩
    cases access with
    | deny => exact absurd rfl hnd
    | allow =>
      simp [updateManyMutation, checkListAccess, hacc, hget, checkFieldAccess, hie]
    | filter f =>
      simp [updateManyMutation, checkListAccess, hacc, hget, checkFieldAccess, hie]

/-- Witness for C6's amended claim: creating with the denied `secret` field
aborts with exactly that restricted path and an untouched state. -/
theorem c6_amended_denied_field_aborts_write_witness :
    ctxC6.listAccess "create" ≠ ListAccess.deny ∧
    restrictedOf listC6 ctxC6 "create" [(none, [("secret", JSVal.num 5)])] ≠ [] ∧
    createMutation listC6 ctxC6 [("secret", JSVal.num 5)] none {} =
      (.error (.accessDenied { type := opToType "create",
                               target := listC6.gqlNames.createMutationName,
                               restrictedFields :=
                                 some (restrictedOf listC6 ctxC6 "create"
                                   [(none, [("secret", JSVal.num 5)])]) }),
       {}) :=
  ⟨by decide, by decide,
   (c6_amended_denied_field_aborts_write listC6 ctxC6 {}).1
     [("secret", JSVal.num 5)] none (by decide) (by decide)⟩

/-- Witness for C10: creating from an input that carries its own id — the
stored item holds the fresh id and keeps the other field. -/
theorem c10_create_appends_with_fresh_id_witness :
    jsLookup (jsonCreate [] [("id", JSVal.num 9), ("name", JSVal.str "a")]
        (JSVal.num 1)).1 "id" = some (JSVal.num 1) ∧
    jsLookup (jsonCreate [] [("id", JSVal.num 9), ("name", JSVal.str "a")]
        (JSVal.num 1)).1 "name" = some (JSVal.str "a") :=
  ⟨(c10_create_appends_with_fresh_id [] [("id", JSVal.num 9), ("name", JSVal.str "a")]
      (JSVal.num 1)).1,
   (c10_create_appends_with_fresh_id [] [("id", JSVal.num 9), ("name", JSVal.str "a")]
      (JSVal.num 1)).2.1 "name" (by decide)⟩
